import Mathlib

/-!
Shallow embedding of the range-sum query program: two sibling matrix
structures (`rowsum`, a per-row prefix-sum matrix, and `allsum`, a
summed-area-table matrix), their construction from a sequence of parsed
integer rows, and their rectangle-sum queries.

Rust `Vec` indexing aborts the process when the index is out of bounds,
so every embedded operation that indexes returns inside an outcome type
with a dedicated `crash` constructor for that abort; `Result` values map
to `ok` / `err`.
-/

namespace RangeSum

/-- Errors surfaced as `Err` values by construction and queries. -/
inductive MatrixError where
  /-- A row's length disagrees with the established column count
  (carries the established count and the offending row's length). -/
  | shapeMismatch (expected actual : Nat)
  /-- Query validation failure: `endx` at or beyond the column count. -/
  | endxOutOfRange (got : Nat)
  /-- Query validation failure: `endy` at or beyond the row count
  (carries the reported limit `rowcount - 1` and the offending value). -/
  | endyOutOfRange (limit got : Nat)
  /-- A record of the row source failed to be read or parsed. -/
  | sourceError (msg : String)
deriving Repr, DecidableEq

/-- Outcome of running a fallible operation: a returned value, a returned
error, or an abort of the whole process via an out-of-bounds index. -/
inductive RunResult (α : Type) where
  | ok (v : α)
  | err (e : MatrixError)
  | crash
deriving Repr, DecidableEq

namespace RunResult

/-- Whether the outcome is a returned value. -/
def isOk {α : Type} : RunResult α → Bool
  | .ok _ => true
  | _ => false

/-- Whether the outcome is a returned error. -/
def isErr {α : Type} : RunResult α → Bool
  | .err _ => true
  | _ => false

end RunResult

/-- The `rowsum` variant: original rows plus one prefix-sum row per
original row (`rowsum::Matrix` in the source). -/
structure RowsumMatrix where
  ncols : Nat
  elems : List (List Int)
  presum : List (List Int)
deriving Repr, DecidableEq

/-- The `allsum` variant: original rows plus a summed-area table
(`allsum::Matrix` in the source). -/
structure AllsumMatrix where
  ncols : Nat
  elems : List (List Int)
  allsum : List (List Int)
deriving Repr, DecidableEq

/-- Running-sum worker for `precomp_rowsum`: `s` is the sum of the
columns already consumed. -/
def precompRowsumAux (s : Int) : List Int → List Int
  | [] => []
  | x :: xs => (s + x) :: precompRowsumAux (s + x) xs

/-- Embedding of `precomp_rowsum`: position `c` of the result holds
`row[0] + ... + row[c]`. -/
def precomp_rowsum (row : List Int) : List Int :=
  precompRowsumAux 0 row

/-- Worker for `precomp_allsum`: walks the row and the previous
summed-area row in lockstep (`s` is the running sum of the current row);
indexing past the end of the previous row is the crash branch. -/
def precompAllsumAux (s : Int) : List Int → List Int → Option (List Int)
  | [], _ => some []
  | _ :: _, [] => none
  | x :: xs, p :: ps =>
      (precompAllsumAux (s + x) xs ps).map (fun rest => (s + x + p) :: rest)

/-- Embedding of `precomp_allsum`: the previous summed-area row is the
last accumulated row, or an all-zero row of the current row's length. -/
def precomp_allsum (row : List Int) (allsum : List (List Int)) : Option (List Int) :=
  let defrow := List.replicate row.length (0 : Int)
  let psr := (allsum.getLast?).getD defrow
  precompAllsumAux 0 row psr

/-- Construction loop of `rowsum::Matrix::new` over the record source:
each record either failed to parse (propagated immediately) or yields a
row, which is appended, shape-checked against the established column
count, and prefix-summed. -/
def rowsumSrcLoop (ncols : Nat) (elems presum : List (List Int)) :
    List (Except String (List Int)) → RunResult RowsumMatrix
  | [] => .ok ⟨ncols, elems, presum⟩
  | .error msg :: _ => .err (.sourceError msg)
  | .ok row :: rest =>
      let rl := row.length
      if ncols = 0 then
        rowsumSrcLoop rl (elems ++ [row]) (presum ++ [precomp_rowsum row]) rest
      else if ncols ≠ rl then
        .err (.shapeMismatch ncols rl)
      else
        rowsumSrcLoop ncols (elems ++ [row]) (presum ++ [precomp_rowsum row]) rest

/-- `rowsum::Matrix::new` from a record source. -/
def rowsumNewFromSource (source : List (Except String (List Int))) :
    RunResult RowsumMatrix :=
  rowsumSrcLoop 0 [] [] source

/-- `rowsum::Matrix::new` on an already-parsed sequence of rows. -/
def rowsumNew (rows : List (List Int)) : RunResult RowsumMatrix :=
  rowsumNewFromSource (rows.map Except.ok)

/-- Construction loop of `allsum::Matrix::new` over the record source:
same shape validation as the `rowsum` variant, but each row is combined
with the previous summed-area row, which can crash when that row is
shorter than the current one. -/
def allsumSrcLoop (ncols : Nat) (elems allsum : List (List Int)) :
    List (Except String (List Int)) → RunResult AllsumMatrix
  | [] => .ok ⟨ncols, elems, allsum⟩
  | .error msg :: _ => .err (.sourceError msg)
  | .ok row :: rest =>
      let rl := row.length
      if ncols ≠ 0 ∧ ncols ≠ rl then
        .err (.shapeMismatch ncols rl)
      else
        match precomp_allsum row allsum with
        | none => .crash
        | some asrow =>
            allsumSrcLoop (if ncols = 0 then rl else ncols)
              (elems ++ [row]) (allsum ++ [asrow]) rest

/-- `allsum::Matrix::new` from a record source. -/
def allsumNewFromSource (source : List (Except String (List Int))) :
    RunResult AllsumMatrix :=
  allsumSrcLoop 0 [] [] source

/-- `allsum::Matrix::new` on an already-parsed sequence of rows. -/
def allsumNew (rows : List (List Int)) : RunResult AllsumMatrix :=
  allsumNewFromSource (rows.map Except.ok)

/-- Per-row accumulation loop of `rowsum::Matrix::sum`: for each row
index `j`, read the prefix sums at `endx` and, when `startx ≠ 0`, at
`startx - 1`, and accumulate the difference; a failed lookup is the
crash branch. -/
def rowsumQueryLoop (presum : List (List Int)) (startx endx : Nat) (s : Int) :
    List Nat → Option Int
  | [] => some s
  | j :: js => do
      let prow ← presum.get? j
      let st ← if startx ≠ 0 then prow.get? (startx - 1) else some 0
      let e ← prow.get? endx
      rowsumQueryLoop presum startx endx (s + (e - st)) js

/-- Embedding of `rowsum::Matrix::sum`: validate `endx` against `ncols`
and `endy` against the row count, then accumulate per-row prefix-sum
differences over `j = starty, ..., endy`. -/
def RowsumMatrix.sum (m : RowsumMatrix) (startx starty endx endy : Nat) :
    RunResult Int :=
  if endx ≥ m.ncols then .err (.endxOutOfRange endx)
  else if endy ≥ m.elems.length then
    .err (.endyOutOfRange (m.elems.length - 1) endy)
  else
    match rowsumQueryLoop m.presum startx endx 0
        (List.range' starty (endy + 1 - starty)) with
    | none => .crash
    | some s => .ok s

/-- Four-point inclusion-exclusion body of `allsum::Matrix::sum`, in the
source's access order; a failed lookup is the crash branch. -/
def allsumQueryBody (allsum : List (List Int)) (startx starty endx endy : Nat) :
    Option Int := do
  let rend ← allsum.get? endy
  let s0 ← rend.get? endx
  let s1 ←
    if startx > 0 then do
      let v ← rend.get? (startx - 1)
      pure (s0 - v)
    else pure s0
  let s2 ←
    if starty > 0 then do
      let rprev ← allsum.get? (starty - 1)
      let v ← rprev.get? endx
      pure (s1 - v)
    else pure s1
  if startx > 0 ∧ starty > 0 then do
    let rprev ← allsum.get? (starty - 1)
    let v ← rprev.get? (startx - 1)
    pure (s2 + v)
  else pure s2

/-- Embedding of `allsum::Matrix::sum`: same validation as the `rowsum`
variant, then four summed-area-table lookups. -/
def AllsumMatrix.sum (m : AllsumMatrix) (startx starty endx endy : Nat) :
    RunResult Int :=
  if endx ≥ m.ncols then .err (.endxOutOfRange endx)
  else if endy ≥ m.elems.length then
    .err (.endyOutOfRange (m.elems.length - 1) endy)
  else
    match allsumQueryBody m.allsum startx starty endx endy with
    | none => .crash
    | some s => .ok s

/-- The element of `rows` at row `j`, column `c` (0 outside). -/
def cell (rows : List (List Int)) (j c : Nat) : Int :=
  (rows.getD j []).getD c 0

/-- Mathematical rectangle sum: the sum of `rows[j][c]` over all
`starty ≤ j ≤ endy` and `startx ≤ c ≤ endx`. -/
def rectSum (rows : List (List Int)) (startx starty endx endy : Nat) : Int :=
  ((List.range' starty (endy + 1 - starty)).map (fun j =>
    ((List.range' startx (endx + 1 - startx)).map (fun c => cell rows j c)).sum)).sum

/-- Sum of the top-left `n × m` block of `rows`: first `m` columns of
each of the first `n` rows. -/
def blockSum (rows : List (List Int)) (n m : Nat) : Int :=
  ((rows.take n).map (fun r => (r.take m).sum)).sum

/-! ### Prefix-sum row characterization -/

lemma precompRowsumAux_length (s : Int) (xs : List Int) :
    (precompRowsumAux s xs).length = xs.length := by
  induction xs generalizing s with
  | nil => simp [precompRowsumAux]
  | cons x xs ih => simp [precompRowsumAux, ih]

lemma precompRowsumAux_get? (s : Int) (xs : List Int) (c : Nat) (hc : c < xs.length) :
    (precompRowsumAux s xs).get? c = some (s + (xs.take (c + 1)).sum) := by
  induction xs generalizing s c with
  | nil => simp at hc
  | cons x xs ih =>
    cases c with
    | zero => simp [precompRowsumAux]
    | succ c =>
      have hc' : c < xs.length := by simpa using hc
      have hstep : precompRowsumAux s (x :: xs) = (s + x) :: precompRowsumAux (s + x) xs := rfl
      rw [hstep, List.get?_cons_succ, ih (s + x) c hc', List.take_succ_cons, List.sum_cons]
      congr 1
      ring

lemma precomp_rowsum_length (row : List Int) :
    (precomp_rowsum row).length = row.length :=
  precompRowsumAux_length 0 row

lemma precomp_rowsum_get? (row : List Int) (c : Nat) (hc : c < row.length) :
    (precomp_rowsum row).get? c = some ((row.take (c + 1)).sum) := by
  simpa [precomp_rowsum] using precompRowsumAux_get? 0 row c hc

/-! ### Sums over index ranges -/

lemma getD_eq_get_of_lt {α : Type} (l : List α) (d : α) {n : Nat} (h : n < l.length) :
    l.getD n d = l[n] := by
  simp [List.getD_eq_getElem?_getD, List.getElem?_eq_getElem h]

lemma getD_length_eq {rows : List (List Int)} {L : Nat}
    (hL : ∀ r ∈ rows, r.length = L) {j : Nat} (hj : j < rows.length) :
    (rows.getD j []).length = L := by
  rw [getD_eq_get_of_lt rows [] hj]
  exact hL _ (List.getElem_mem hj)

lemma sum_map_sub {α : Type} (l : List α) (f g : α → Int) :
    (l.map (fun x => f x - g x)).sum = (l.map f).sum - (l.map g).sum := by
  induction l with
  | nil => simp
  | cons x xs ih => simp [ih]; ring

lemma take_succ_map_sum {α : Type} (l : List α) (g : α → Int) (d : α) (a : Nat)
    (ha : a < l.length) :
    ((l.take (a + 1)).map g).sum = ((l.take a).map g).sum + g (l.getD a d) := by
  rw [List.take_succ, List.map_append, List.sum_append,
    List.getElem?_eq_getElem ha, getD_eq_get_of_lt l d ha]
  simp

lemma sum_range'_map_getD {α : Type} (l : List α) (d : α) (g : α → Int) (a n : Nat)
    (h : a + n ≤ l.length) :
    ((List.range' a n).map (fun j => g (l.getD j d))).sum
      = ((l.take (a + n)).map g).sum - ((l.take a).map g).sum := by
  induction n generalizing a with
  | zero => simp
  | succ n ih =>
    rw [List.range'_succ]
    have ha : a < l.length := by omega
    have h' : (a + 1) + n ≤ l.length := by omega
    simp only [List.map_cons, List.sum_cons, ih (a + 1) h']
    rw [take_succ_map_sum l g d a ha]
    have : a + 1 + n = a + (n + 1) := by omega
    rw [this]
    ring

lemma rectSum_eq_blockSum {rows : List (List Int)} {L : Nat}
    (hL : ∀ r ∈ rows, r.length = L) {startx starty endx endy : Nat}
    (hex : endx < L) (hey : endy < rows.length)
    (hx : startx ≤ endx + 1) (hy : starty ≤ endy + 1) :
    rectSum rows startx starty endx endy
      = (blockSum rows (endy + 1) (endx + 1) - blockSum rows starty (endx + 1))
        - (blockSum rows (endy + 1) startx - blockSum rows starty startx) := by
  unfold rectSum
  have hinner : ∀ j ∈ List.range' starty (endy + 1 - starty),
      ((List.range' startx (endx + 1 - startx)).map (fun c => cell rows j c)).sum
        = ((rows.getD j []).take (endx + 1)).sum - ((rows.getD j []).take startx).sum := by
    intro j hj
    have hj' : j < rows.length := by
      have := (List.mem_range'_1.mp hj).2
      omega
    have hlen : (rows.getD j []).length = L := getD_length_eq hL hj'
    have := sum_range'_map_getD (rows.getD j []) 0 (fun x => x) startx
      (endx + 1 - startx) (by omega)
    simpa [cell, Nat.add_sub_cancel' hx] using this
  rw [List.map_congr_left hinner]
  have hsplit := sum_map_sub (List.range' starty (endy + 1 - starty))
    (fun j => ((rows.getD j []).take (endx + 1)).sum)
    (fun j => ((rows.getD j []).take startx).sum)
  rw [hsplit]
  have h1 := sum_range'_map_getD rows [] (fun r => (r.take (endx + 1)).sum)
    starty (endy + 1 - starty) (by omega)
  have h2 := sum_range'_map_getD rows [] (fun r => (r.take startx).sum)
    starty (endy + 1 - starty) (by omega)
  rw [Nat.add_sub_cancel' hy] at h1 h2
  rw [h1, h2]
  simp [blockSum]

/-! ### Summed-area table characterization -/

/-- Total counterpart of `precompAllsumAux` on inputs where the previous
row is long enough (the only inputs on which the embedded code does not
crash). -/
def sumRowWith (s : Int) : List Int → List Int → List Int
  | [], _ => []
  | _ :: _, [] => []
  | x :: xs, p :: ps => (s + x + p) :: sumRowWith (s + x) xs ps

lemma sumRowWith_length (s : Int) (xs ps : List Int) (h : xs.length ≤ ps.length) :
    (sumRowWith s xs ps).length = xs.length := by
  induction xs generalizing s ps with
  | nil => simp [sumRowWith]
  | cons x xs ih =>
    cases ps with
    | nil => simp at h
    | cons p ps =>
      have h' : xs.length ≤ ps.length := by simpa using h
      simp [sumRowWith, ih (s + x) ps h']

lemma sumRowWith_get? (s : Int) (xs ps : List Int) (c : Nat)
    (hc : c < xs.length) (h : xs.length ≤ ps.length) :
    (sumRowWith s xs ps).get? c = some (s + (xs.take (c + 1)).sum + ps.getD c 0) := by
  induction xs generalizing s ps c with
  | nil => simp at hc
  | cons x xs ih =>
    cases ps with
    | nil => simp at h
    | cons p ps =>
      have h' : xs.length ≤ ps.length := by simpa using h
      cases c with
      | zero => simp [sumRowWith]
      | succ c =>
        have hc' : c < xs.length := by simpa using hc
        have hstep : sumRowWith s (x :: xs) (p :: ps)
            = (s + x + p) :: sumRowWith (s + x) xs ps := rfl
        rw [hstep, List.get?_cons_succ, ih (s + x) ps c hc' h',
          List.take_succ_cons, List.sum_cons]
        have hget : (p :: ps).getD (c + 1) 0 = ps.getD c 0 := by
          simp [List.getD_eq_getElem?_getD]
        rw [hget]
        congr 1
        ring

lemma precompAllsumAux_eq_sumRowWith (s : Int) (xs ps : List Int)
    (h : xs.length ≤ ps.length) :
    precompAllsumAux s xs ps = some (sumRowWith s xs ps) := by
  induction xs generalizing s ps with
  | nil => simp [precompAllsumAux, sumRowWith]
  | cons x xs ih =>
    cases ps with
    | nil => simp at h
    | cons p ps =>
      have h' : xs.length ≤ ps.length := by simpa using h
      simp [precompAllsumAux, sumRowWith, ih (s + x) ps h']

/-- Functional form of the summed-area table built row by row:
`prev` is the previous table row. -/
def allsumTableAux (prev : List Int) : List (List Int) → List (List Int)
  | [] => []
  | row :: rest =>
      sumRowWith 0 row prev :: allsumTableAux (sumRowWith 0 row prev) rest

/-- The summed-area table of a whole row sequence whose rows all have
length `L`: the virtual previous row of the first row is all zero. -/
def allsumTable (L : Nat) (rows : List (List Int)) : List (List Int) :=
  allsumTableAux (List.replicate L 0) rows

lemma allsumTableAux_length (prev : List Int) (rows : List (List Int)) :
    (allsumTableAux prev rows).length = rows.length := by
  induction rows generalizing prev with
  | nil => simp [allsumTableAux]
  | cons row rest ih => simp [allsumTableAux, ih]

lemma blockSum_cons (row : List Int) (rest : List (List Int)) (n m : Nat) :
    blockSum (row :: rest) (n + 1) m = (row.take m).sum + blockSum rest n m := by
  simp [blockSum]

lemma getD_of_get?_some {l : List Int} {n : Nat} {v : Int} (h : l.get? n = some v) :
    l.getD n 0 = v := by
  rw [List.getD_eq_getElem?_getD, ← List.get?_eq_getElem?, h]
  rfl

lemma allsumTableAux_get? {L : Nat} (rows : List (List Int)) (prev : List Int)
    (hL : ∀ r ∈ rows, r.length = L) (hprev : prev.length = L)
    {j : Nat} (hj : j < rows.length) :
    ∃ tr, (allsumTableAux prev rows).get? j = some tr ∧ tr.length = L ∧
      ∀ c < L, tr.getD c 0 = prev.getD c 0 + blockSum rows (j + 1) (c + 1) := by
  induction rows generalizing prev j with
  | nil => simp at hj
  | cons row rest ih =>
    have hrow : row.length = L := hL row (by simp)
    have hcurlen : (sumRowWith 0 row prev).length = L := by
      rw [sumRowWith_length 0 row prev (by omega)]
      exact hrow
    cases j with
    | zero =>
      refine ⟨sumRowWith 0 row prev, by simp [allsumTableAux], hcurlen, ?_⟩
      intro c hc
      have hc' : c < row.length := by omega
      have hv := sumRowWith_get? 0 row prev c hc' (by omega)
      rw [getD_of_get?_some hv]
      have hbs : blockSum (row :: rest) 1 (c + 1) = (row.take (c + 1)).sum := by
        simp [blockSum]
      rw [hbs]
      ring
    | succ j =>
      have hj' : j < rest.length := by simpa using hj
      obtain ⟨tr, hget, hlen, hval⟩ :=
        ih (sumRowWith 0 row prev) (fun r hr => hL r (by simp [hr])) hcurlen hj'
      refine ⟨tr, ?_, hlen, ?_⟩
      · simpa [allsumTableAux] using hget
      · intro c hc
        have hc' : c < row.length := by omega
        rw [hval c hc]
        have hcur := sumRowWith_get? 0 row prev c hc' (by omega)
        rw [getD_of_get?_some hcur, blockSum_cons]
        ring

/-! ### Construction characterization on equal-length rows -/

lemma rowsumSrcLoop_eq (L : Nat) (rows : List (List Int))
    (hL : ∀ r ∈ rows, r.length = L) (elems presum : List (List Int)) :
    rowsumSrcLoop L elems presum (rows.map Except.ok)
      = .ok ⟨L, elems ++ rows, presum ++ rows.map precomp_rowsum⟩ := by
  induction rows generalizing elems presum with
  | nil => simp [rowsumSrcLoop]
  | cons row rest ih =>
    have hrow : row.length = L := hL row (by simp)
    have hrest : ∀ r ∈ rest, r.length = L := fun r hr => hL r (by simp [hr])
    by_cases hL0 : L = 0
    · subst hL0
      simp only [List.map_cons, rowsumSrcLoop, hrow, if_pos rfl]
      rw [ih hrest]
      simp
    · simp only [List.map_cons, rowsumSrcLoop, hrow, hL0, if_false, if_neg hL0,
        ne_eq, not_true_eq_false, if_neg (by simp : ¬L ≠ L)]
      rw [ih hrest]
      simp

lemma rowsumNew_eq (L : Nat) (r0 : List Int) (rest : List (List Int))
    (hL : ∀ r ∈ r0 :: rest, r.length = L) :
    rowsumNew (r0 :: rest)
      = .ok ⟨L, r0 :: rest, (r0 :: rest).map precomp_rowsum⟩ := by
  have hr0 : r0.length = L := hL r0 (by simp)
  have hrest : ∀ r ∈ rest, r.length = L := fun r hr => hL r (by simp [hr])
  show rowsumSrcLoop 0 [] [] (Except.ok r0 :: rest.map Except.ok) = _
  rw [rowsumSrcLoop]
  simp only [if_pos rfl]
  rw [hr0, rowsumSrcLoop_eq L rest hrest]
  simp

lemma allsumSrcLoop_eq (L : Nat) (rows : List (List Int))
    (hL : ∀ r ∈ rows, r.length = L) (elems acc : List (List Int))
    (hlast : ((acc.getLast?).getD (List.replicate L 0)).length = L) :
    allsumSrcLoop L elems acc (rows.map Except.ok)
      = .ok ⟨L, elems ++ rows,
          acc ++ allsumTableAux ((acc.getLast?).getD (List.replicate L 0)) rows⟩ := by
  induction rows generalizing elems acc with
  | nil => simp [allsumSrcLoop, allsumTableAux]
  | cons row rest ih =>
    have hrow : row.length = L := hL row (by simp)
    have hrest : ∀ r ∈ rest, r.length = L := fun r hr => hL r (by simp [hr])
    set psr := (acc.getLast?).getD (List.replicate L 0) with hpsr
    have hpre : precomp_allsum row acc = some (sumRowWith 0 row psr) := by
      show precompAllsumAux 0 row ((acc.getLast?).getD (List.replicate row.length 0)) = _
      rw [hrow, ← hpsr]
      exact precompAllsumAux_eq_sumRowWith 0 row psr (by omega)
    set cur := sumRowWith 0 row psr with hcur
    have hcurlen : cur.length = L := by
      rw [hcur, sumRowWith_length 0 row psr (by omega)]
      exact hrow
    have hlast' : (((acc ++ [cur]).getLast?).getD (List.replicate L 0)).length = L := by
      simp [List.getLast?_append, hcurlen]
    have hcond : ¬(L ≠ 0 ∧ L ≠ row.length) := by
      rw [hrow]
      simp
    simp only [List.map_cons, allsumSrcLoop, if_neg hcond, hpre]
    have hif : (if L = 0 then row.length else L) = L := by
      by_cases h0 : L = 0 <;> simp [h0, hrow]
    rw [hif, ih hrest (elems ++ [row]) (acc ++ [cur]) hlast']
    have hlastcur : ((acc ++ [cur]).getLast?).getD (List.replicate L 0) = cur := by
      simp [List.getLast?_append]
    rw [hlastcur]
    simp [allsumTableAux, ← hcur, ← hpsr]

lemma allsumNew_eq (L : Nat) (r0 : List Int) (rest : List (List Int))
    (hL : ∀ r ∈ r0 :: rest, r.length = L) :
    allsumNew (r0 :: rest) = .ok ⟨L, r0 :: rest, allsumTable L (r0 :: rest)⟩ := by
  have hr0 : r0.length = L := hL r0 (by simp)
  have hrest : ∀ r ∈ rest, r.length = L := fun r hr => hL r (by simp [hr])
  set cur0 := sumRowWith 0 r0 (List.replicate L 0) with hcur0
  have hpre : precomp_allsum r0 [] = some cur0 := by
    unfold precomp_allsum
    rw [hr0]
    simpa using precompAllsumAux_eq_sumRowWith 0 r0 (List.replicate L 0) (by simp [hr0])
  have hcur0len : cur0.length = L := by
    rw [hcur0, sumRowWith_length 0 r0 (List.replicate L 0) (by simp [hr0])]
    exact hr0
  show allsumSrcLoop 0 [] [] (Except.ok r0 :: rest.map Except.ok) = _
  rw [allsumSrcLoop]
  simp only [if_neg (by simp : ¬((0 : Nat) ≠ 0 ∧ (0 : Nat) ≠ r0.length)), hpre]
  simp [hr0, ← hcur0]
  rw [allsumSrcLoop_eq L rest hrest [r0] [cur0] (by simp [hcur0len])]
  have hlast : (([cur0] : List (List Int)).getLast?).getD (List.replicate L 0) = cur0 := by
    simp
  rw [hlast]
  simp [allsumTable, allsumTableAux, ← hcur0]

/-! ### Query evaluation -/

lemma getD_eq_of_get? {α : Type} (d : α) {l : List α} {n : Nat} {v : α}
    (h : l.get? n = some v) : l.getD n d = v := by
  rw [List.getD_eq_getElem?_getD, ← List.get?_eq_getElem?, h]
  rfl

lemma get?_eq_some_getD {l : List Int} {n : Nat} (h : n < l.length) :
    l.get? n = some (l.getD n 0) := by
  rw [List.get?_eq_getElem?, List.getElem?_eq_getElem h]
  simp [List.getD_eq_getElem?_getD, List.getElem?_eq_getElem h]

lemma replicate_getD (L c : Nat) : (List.replicate L (0 : Int)).getD c 0 = 0 := by
  rw [List.getD_eq_getElem?_getD, List.getElem?_replicate]
  by_cases h : c < L <;> simp [h]

lemma blockSum_zero_rows (rows : List (List Int)) (m : Nat) : blockSum rows 0 m = 0 := by
  simp [blockSum]

lemma blockSum_zero_cols (rows : List (List Int)) (n : Nat) : blockSum rows n 0 = 0 := by
  simp [blockSum]

lemma rowsumQueryLoop_eq (presum : List (List Int)) (startx endx : Nat)
    (js : List Nat) (s : Int)
    (h : ∀ j ∈ js, ∃ prow, presum.get? j = some prow ∧ endx < prow.length ∧
      (startx ≠ 0 → startx - 1 < prow.length)) :
    rowsumQueryLoop presum startx endx s js
      = some (s + (js.map (fun j =>
          (presum.getD j []).getD endx 0
            - if startx = 0 then 0 else (presum.getD j []).getD (startx - 1) 0)).sum) := by
  induction js generalizing s with
  | nil => simp [rowsumQueryLoop]
  | cons j js ih =>
    obtain ⟨prow, hget, hendx, hstart⟩ := h j (by simp)
    have hrest : ∀ j' ∈ js, ∃ prow, presum.get? j' = some prow ∧ endx < prow.length ∧
        (startx ≠ 0 → startx - 1 < prow.length) := fun j' hj' => h j' (by simp [hj'])
    rw [List.get?_eq_getElem?] at hget
    have he : prow[endx]? = some (prow.getD endx 0) := by
      rw [← List.get?_eq_getElem?]
      exact get?_eq_some_getD hendx
    by_cases h0 : startx = 0
    · subst h0
      simp only [rowsumQueryLoop, List.get?_eq_getElem?, hget, Option.bind_eq_bind,
        Option.some_bind, ne_eq, not_true_eq_false, if_false, he]
      rw [ih _ hrest]
      simp [List.getD_eq_getElem?_getD, hget]
      ring
    · have hs : prow[startx - 1]? = some (prow.getD (startx - 1) 0) := by
        rw [← List.get?_eq_getElem?]
        exact get?_eq_some_getD (hstart h0)
      simp only [rowsumQueryLoop, List.get?_eq_getElem?, hget, Option.bind_eq_bind,
        Option.some_bind, ne_eq, h0, not_false_eq_true, if_true, hs, he]
      rw [ih _ hrest]
      simp [List.getD_eq_getElem?_getD, hget, if_neg h0]
      ring

lemma allsumQueryBody_eq (table : List (List Int)) (startx starty endx endy : Nat)
    (rend rprev : List Int) (hrend : table.get? endy = some rend)
    (hgp : starty ≠ 0 → table.get? (starty - 1) = some rprev)
    (hre : endx < rend.length) (hrs : startx ≠ 0 → startx - 1 < rend.length)
    (hpe : starty ≠ 0 → endx < rprev.length)
    (hps : starty ≠ 0 → startx ≠ 0 → startx - 1 < rprev.length) :
    allsumQueryBody table startx starty endx endy
      = some ((rend.getD endx 0)
          - (if startx = 0 then 0 else rend.getD (startx - 1) 0)
          - (if starty = 0 then 0 else rprev.getD endx 0)
          + (if startx = 0 ∨ starty = 0 then 0 else rprev.getD (startx - 1) 0)) := by
  rw [List.get?_eq_getElem?] at hrend
  set vE := rend.getD endx 0 with hvE
  set vSX := rend.getD (startx - 1) 0 with hvSX
  set vPE := rprev.getD endx 0 with hvPE
  set vPS := rprev.getD (startx - 1) 0 with hvPS
  have he : rend[endx]? = some vE := by
    rw [hvE, ← List.get?_eq_getElem?]
    exact get?_eq_some_getD hre
  by_cases h0x : startx = 0 <;> by_cases h0y : starty = 0
  · simp [allsumQueryBody, hrend, he, h0x, h0y]
  · have hgp' : table[starty - 1]? = some rprev := by
      rw [← List.get?_eq_getElem?]
      exact hgp h0y
    have hpe' : rprev[endx]? = some vPE := by
      rw [hvPE, ← List.get?_eq_getElem?]
      exact get?_eq_some_getD (hpe h0y)
    have hposy : 0 < starty := Nat.pos_of_ne_zero h0y
    simp [allsumQueryBody, hrend, he, h0x, h0y, hposy, hgp', hpe']
  · have hxs : rend[startx - 1]? = some vSX := by
      rw [hvSX, ← List.get?_eq_getElem?]
      exact get?_eq_some_getD (hrs h0x)
    have hposx : 0 < startx := Nat.pos_of_ne_zero h0x
    simp [allsumQueryBody, hrend, he, h0x, h0y, hposx, hxs]
  · have hgp' : table[starty - 1]? = some rprev := by
      rw [← List.get?_eq_getElem?]
      exact hgp h0y
    have hpe' : rprev[endx]? = some vPE := by
      rw [hvPE, ← List.get?_eq_getElem?]
      exact get?_eq_some_getD (hpe h0y)
    have hps' : rprev[startx - 1]? = some vPS := by
      rw [hvPS, ← List.get?_eq_getElem?]
      exact get?_eq_some_getD (hps h0y h0x)
    have hxs : rend[startx - 1]? = some vSX := by
      rw [hvSX, ← List.get?_eq_getElem?]
      exact get?_eq_some_getD (hrs h0x)
    have hposx : 0 < startx := Nat.pos_of_ne_zero h0x
    have hposy : 0 < starty := Nat.pos_of_ne_zero h0y
    simp [allsumQueryBody, hrend, he, h0x, h0y, hposx, hposy, hgp', hpe', hps', hxs]

lemma get?_eq_some_getDP {α : Type} (d : α) {l : List α} {n : Nat} (h : n < l.length) :
    l.get? n = some (l.getD n d) := by
  rw [List.get?_eq_getElem?, List.getElem?_eq_getElem h, getD_eq_get_of_lt l d h]

lemma sum_sub_take_eq_rectSum {rows : List (List Int)} {L : Nat}
    (hL : ∀ r ∈ rows, r.length = L) {startx starty endx endy : Nat}
    (hex : endx < L) (hey : endy < rows.length)
    (hx : startx ≤ endx + 1) (hy : starty ≤ endy + 1) :
    ((List.range' starty (endy + 1 - starty)).map (fun j =>
        ((rows.getD j []).take (endx + 1)).sum - ((rows.getD j []).take startx).sum)).sum
      = rectSum rows startx starty endx endy := by
  rw [rectSum_eq_blockSum hL hex hey hx hy,
    sum_map_sub (List.range' starty (endy + 1 - starty))
      (fun j => ((rows.getD j []).take (endx + 1)).sum)
      (fun j => ((rows.getD j []).take startx).sum),
    sum_range'_map_getD rows [] (fun r => (r.take (endx + 1)).sum) starty
      (endy + 1 - starty) (by omega),
    sum_range'_map_getD rows [] (fun r => (r.take startx).sum) starty
      (endy + 1 - starty) (by omega),
    Nat.add_sub_cancel' hy]
  simp [blockSum]

/-! ### Core query correctness on constructed matrices -/

lemma rowsum_sum_value (L : Nat) (rows : List (List Int)) (hL : ∀ r ∈ rows, r.length = L)
    (m : RowsumMatrix) (hm : rowsumNew rows = .ok m)
    (startx starty endx endy : Nat) (hx : startx ≤ endx) (hex : endx < m.ncols)
    (hy : starty ≤ endy) (hey : endy < m.elems.length) :
    m.sum startx starty endx endy = .ok (rectSum rows startx starty endx endy) := by
  cases rows with
  | nil =>
    have hm0 : RunResult.ok (⟨0, [], []⟩ : RowsumMatrix) = .ok m := by
      rw [← hm]
      rfl
    injection hm0 with hm0
    rw [← hm0] at hex
    simp at hex
  | cons r0 rest =>
    have hmm := rowsumNew_eq L r0 rest hL
    rw [hm] at hmm
    injection hmm with hmm
    subst hmm
    have hex' : endx < L := hex
    have hey' : endy < (r0 :: rest).length := hey
    have hhyp : ∀ j ∈ List.range' starty (endy + 1 - starty), ∃ prow,
        ((r0 :: rest).map precomp_rowsum).get? j = some prow ∧ endx < prow.length ∧
        (startx ≠ 0 → startx - 1 < prow.length) := by
      intro j hj
      have hj' : j ≤ endy := by
        have := (List.mem_range'_1.mp hj).2
        omega
      have hjlen : j < (r0 :: rest).length := by omega
      have hrowlen : ((r0 :: rest).getD j []).length = L := getD_length_eq hL hjlen
      refine ⟨precomp_rowsum ((r0 :: rest).getD j []), ?_, ?_, ?_⟩
      · rw [List.get?_eq_getElem?, List.getElem?_map, ← List.get?_eq_getElem?,
          get?_eq_some_getDP [] hjlen]
        rfl
      · rw [precomp_rowsum_length, hrowlen]
        omega
      · intro h0
        rw [precomp_rowsum_length, hrowlen]
        omega
    have hloop := rowsumQueryLoop_eq ((r0 :: rest).map precomp_rowsum) startx endx
      (List.range' starty (endy + 1 - starty)) 0 hhyp
    have hval : ∀ j ∈ List.range' starty (endy + 1 - starty),
        (((r0 :: rest).map precomp_rowsum).getD j []).getD endx 0
            - (if startx = 0 then 0
               else (((r0 :: rest).map precomp_rowsum).getD j []).getD (startx - 1) 0)
          = (((r0 :: rest).getD j []).take (endx + 1)).sum
            - (((r0 :: rest).getD j []).take startx).sum := by
      intro j hj
      have hj' : j ≤ endy := by
        have := (List.mem_range'_1.mp hj).2
        omega
      have hjlen : j < (r0 :: rest).length := by omega
      have hrowlen : ((r0 :: rest).getD j []).length = L := getD_length_eq hL hjlen
      have hpd : ((r0 :: rest).map precomp_rowsum).getD j []
          = precomp_rowsum ((r0 :: rest).getD j []) := by
        refine getD_eq_of_get? [] ?_
        rw [List.get?_eq_getElem?, List.getElem?_map, ← List.get?_eq_getElem?,
          get?_eq_some_getDP [] hjlen]
        rfl
      rw [hpd]
      have hend : (precomp_rowsum ((r0 :: rest).getD j [])).getD endx 0
          = (((r0 :: rest).getD j []).take (endx + 1)).sum :=
        getD_of_get?_some (precomp_rowsum_get? _ endx (by omega))
      rw [hend]
      by_cases h0 : startx = 0
      · simp [h0]
      · have hsx : (precomp_rowsum ((r0 :: rest).getD j [])).getD (startx - 1) 0
            = (((r0 :: rest).getD j []).take ((startx - 1) + 1)).sum :=
          getD_of_get?_some (precomp_rowsum_get? _ (startx - 1) (by omega))
        have harith : startx - 1 + 1 = startx := by omega
        rw [if_neg h0, hsx, harith]
    rw [List.map_congr_left hval,
      sum_sub_take_eq_rectSum hL hex' hey' (by omega) (by omega), zero_add] at hloop
    show RowsumMatrix.sum _ _ _ _ _ = _
    simp only [RowsumMatrix.sum, hloop]
    rw [if_neg (by omega), if_neg (by omega)]

lemma allsum_sum_value (L : Nat) (rows : List (List Int)) (hL : ∀ r ∈ rows, r.length = L)
    (m : AllsumMatrix) (hm : allsumNew rows = .ok m)
    (startx starty endx endy : Nat) (hx : startx ≤ endx) (hex : endx < m.ncols)
    (hy : starty ≤ endy) (hey : endy < m.elems.length) :
    m.sum startx starty endx endy = .ok (rectSum rows startx starty endx endy) := by
  cases rows with
  | nil =>
    have hm0 : RunResult.ok (⟨0, [], []⟩ : AllsumMatrix) = .ok m := by
      rw [← hm]
      rfl
    injection hm0 with hm0
    rw [← hm0] at hex
    simp at hex
  | cons r0 rest =>
    have hmm := allsumNew_eq L r0 rest hL
    rw [hm] at hmm
    injection hmm with hmm
    subst hmm
    have hex' : endx < L := hex
    have hey' : endy < (r0 :: rest).length := hey
    obtain ⟨trE, hgE, hlE, hvE⟩ := allsumTableAux_get? (r0 :: rest) (List.replicate L 0)
      hL (by simp) hey'
    have hgE' : (allsumTable L (r0 :: rest)).get? endy = some trE := hgE
    have hvEx : trE.getD endx 0 = blockSum (r0 :: rest) (endy + 1) (endx + 1) := by
      rw [hvE endx hex', replicate_getD]
      ring
    by_cases h0y : starty = 0
    · have hbody := allsumQueryBody_eq (allsumTable L (r0 :: rest)) startx starty endx endy
        trE [] hgE' (fun h => absurd h0y h) (by omega)
        (fun h0 => by rw [hlE]; omega) (fun h => absurd h0y h) (fun h => absurd h0y h)
      show AllsumMatrix.sum _ _ _ _ _ = _
      simp only [AllsumMatrix.sum, hbody]
      rw [if_neg (by omega), if_neg (by omega)]
      simp only [RunResult.ok.injEq]
      rw [rectSum_eq_blockSum hL hex' hey' (by omega) (by omega)]
      by_cases h0x : startx = 0
      · rw [hvEx]
        simp [h0x, h0y, blockSum_zero_rows, blockSum_zero_cols]
      · have harith : startx - 1 + 1 = startx := by omega
        have hvSx : trE.getD (startx - 1) 0 = blockSum (r0 :: rest) (endy + 1) startx := by
          rw [hvE (startx - 1) (by omega), replicate_getD, harith]
          ring
        rw [hvEx, hvSx]
        simp only [h0x, h0y, if_false, if_true, or_true, blockSum_zero_rows]
        ring
    · have hjP : starty - 1 < (r0 :: rest).length := by omega
      obtain ⟨trP, hgP, hlP, hvP⟩ := allsumTableAux_get? (r0 :: rest) (List.replicate L 0)
        hL (by simp) hjP
      have hgP' : (allsumTable L (r0 :: rest)).get? (starty - 1) = some trP := hgP
      have harithy : starty - 1 + 1 = starty := by omega
      have hvPx : trP.getD endx 0 = blockSum (r0 :: rest) starty (endx + 1) := by
        rw [hvP endx hex', replicate_getD, harithy]
        ring
      have hbody := allsumQueryBody_eq (allsumTable L (r0 :: rest)) startx starty endx endy
        trE trP hgE' (fun _ => hgP') (by omega)
        (fun h0 => by rw [hlE]; omega) (fun _ => by rw [hlP]; omega)
        (fun _ h0 => by rw [hlP]; omega)
      show AllsumMatrix.sum _ _ _ _ _ = _
      simp only [AllsumMatrix.sum, hbody]
      rw [if_neg (by omega), if_neg (by omega)]
      simp only [RunResult.ok.injEq]
      rw [rectSum_eq_blockSum hL hex' hey' (by omega) (by omega)]
      by_cases h0x : startx = 0
      · rw [hvEx, hvPx]
        simp only [h0x, h0y, if_true, if_false, true_or, blockSum_zero_cols]
        ring
      · have harith : startx - 1 + 1 = startx := by omega
        have hvSx : trE.getD (startx - 1) 0 = blockSum (r0 :: rest) (endy + 1) startx := by
          rw [hvE (startx - 1) (by omega), replicate_getD, harith]
          ring
        have hvPs : trP.getD (startx - 1) 0 = blockSum (r0 :: rest) starty startx := by
          rw [hvP (startx - 1) (by omega), replicate_getD, harithy, harith]
          ring
        rw [hvEx, hvSx, hvPx, hvPs, if_neg h0x, if_neg h0y,
          if_neg (fun h => h.elim h0x h0y)]
        ring

/-! ### Rectangle decomposition -/

lemma sum_map_add {α : Type} (l : List α) (f g : α → Int) :
    (l.map (fun x => f x + g x)).sum = (l.map f).sum + (l.map g).sum := by
  induction l with
  | nil => simp
  | cons x xs ih => simp [ih]; ring

lemma rectSum_split_vert (rows : List (List Int)) (startx starty endx endy k : Nat)
    (hk1 : startx ≤ k) (hk2 : k < endx) :
    rectSum rows startx starty endx endy
      = rectSum rows startx starty k endy + rectSum rows (k + 1) starty endx endy := by
  unfold rectSum
  have hsplit : List.range' startx (endx + 1 - startx)
      = List.range' startx (k + 1 - startx) ++ List.range' (k + 1) (endx - k) := by
    have h := List.range'_append startx (k + 1 - startx) (endx - k) 1
    rw [show startx + 1 * (k + 1 - startx) = k + 1 by omega] at h
    rw [show endx - k + (k + 1 - startx) = endx + 1 - startx by omega] at h
    exact h.symm
  rw [hsplit, show endx + 1 - (k + 1) = endx - k by omega]
  simp only [List.map_append, List.sum_append]
  rw [sum_map_add]

lemma rectSum_split_horiz (rows : List (List Int)) (startx starty endx endy k : Nat)
    (hk1 : starty ≤ k) (hk2 : k < endy) :
    rectSum rows startx starty endx endy
      = rectSum rows startx starty endx k + rectSum rows startx (k + 1) endx endy := by
  unfold rectSum
  have hsplit : List.range' starty (endy + 1 - starty)
      = List.range' starty (k + 1 - starty) ++ List.range' (k + 1) (endy - k) := by
    have h := List.range'_append starty (k + 1 - starty) (endy - k) 1
    rw [show starty + 1 * (k + 1 - starty) = k + 1 by omega] at h
    rw [show endy - k + (k + 1 - starty) = endy + 1 - starty by omega] at h
    exact h.symm
  rw [hsplit, show endy + 1 - (k + 1) = endy - k by omega]
  simp only [List.map_append, List.sum_append]

/-! ### In-bounds queries return values -/

lemma rowsum_sum_ok_of_bounds (m : RowsumMatrix) (startx starty endx endy : Nat)
    (hpre : ∀ r ∈ m.presum, r.length = m.ncols)
    (hlen : m.elems.length ≤ m.presum.length)
    (hex : endx < m.ncols) (hey : endy < m.elems.length) (hsx : startx ≤ m.ncols) :
    ∃ v, m.sum startx starty endx endy = .ok v := by
  have hhyp : ∀ j ∈ List.range' starty (endy + 1 - starty), ∃ prow,
      m.presum.get? j = some prow ∧ endx < prow.length ∧
      (startx ≠ 0 → startx - 1 < prow.length) := by
    intro j hj
    have hmem := List.mem_range'_1.mp hj
    have hj' : j ≤ endy := by omega
    have hjlen : j < m.presum.length := by omega
    have hrowlen : (m.presum.getD j []).length = m.ncols := getD_length_eq hpre hjlen
    exact ⟨m.presum.getD j [], get?_eq_some_getDP [] hjlen, by omega, fun _ => by omega⟩
  have hloop := rowsumQueryLoop_eq m.presum startx endx
    (List.range' starty (endy + 1 - starty)) 0 hhyp
  have hsum : m.sum startx starty endx endy
      = .ok (0 + (List.map (fun j => (m.presum.getD j []).getD endx 0
          - if startx = 0 then 0 else (m.presum.getD j []).getD (startx - 1) 0)
          (List.range' starty (endy + 1 - starty))).sum) := by
    simp only [RowsumMatrix.sum, hloop]
    rw [if_neg (by omega), if_neg (by omega)]
  exact ⟨_, hsum⟩

lemma allsum_sum_ok_of_bounds (m : AllsumMatrix) (startx starty endx endy : Nat)
    (htab : ∀ r ∈ m.allsum, r.length = m.ncols)
    (hlen : m.elems.length ≤ m.allsum.length)
    (hex : endx < m.ncols) (hey : endy < m.elems.length)
    (hsx : startx ≤ m.ncols) (hsy : starty ≤ m.elems.length) :
    ∃ v, m.sum startx starty endx endy = .ok v := by
  have heylen : endy < m.allsum.length := by omega
  have hrendlen : (m.allsum.getD endy []).length = m.ncols := getD_length_eq htab heylen
  have hbody := allsumQueryBody_eq m.allsum startx starty endx endy
    (m.allsum.getD endy []) (m.allsum.getD (starty - 1) [])
    (get?_eq_some_getDP [] heylen)
    (fun h0 => get?_eq_some_getDP [] (by omega))
    (by omega) (fun _ => by omega)
    (fun h0 => by
      have : (m.allsum.getD (starty - 1) []).length = m.ncols :=
        getD_length_eq htab (by omega)
      omega)
    (fun h0 _ => by
      have : (m.allsum.getD (starty - 1) []).length = m.ncols :=
        getD_length_eq htab (by omega)
      omega)
  have hsum : m.sum startx starty endx endy
      = .ok ((((m.allsum.getD endy []).getD endx 0
          - if startx = 0 then 0 else (m.allsum.getD endy []).getD (startx - 1) 0)
          - if starty = 0 then 0 else (m.allsum.getD (starty - 1) []).getD endx 0)
          + if startx = 0 ∨ starty = 0 then 0
            else (m.allsum.getD (starty - 1) []).getD (startx - 1) 0) := by
    simp only [AllsumMatrix.sum, hbody]
    rw [if_neg (by omega), if_neg (by omega)]
  exact ⟨_, hsum⟩

/-! ### Construction failure paths -/

lemma exists_first_offender {L : Nat} {rest : List (List Int)}
    (h : ¬ ∀ r ∈ rest, r.length = L) :
    ∃ good bad rest2, rest = good ++ bad :: rest2 ∧
      (∀ r ∈ good, r.length = L) ∧ bad.length ≠ L := by
  induction rest with
  | nil => exact absurd (by simp) h
  | cons r rs ih =>
    by_cases hr : r.length = L
    · have h' : ¬ ∀ x ∈ rs, x.length = L := by
        intro hall
        refine h ?_
        intro x hx
        rcases List.mem_cons.mp hx with h1 | h2
        · rw [h1]
          exact hr
        · exact hall x h2
      obtain ⟨g, b, r2, hdec, hg, hb⟩ := ih h'
      refine ⟨r :: g, b, r2, by rw [hdec]; rfl, ?_, hb⟩
      intro x hx
      rcases List.mem_cons.mp hx with h1 | h2
      · rw [h1]
        exact hr
      · exact hg x h2
    · exact ⟨[], r, rs, rfl, by simp, hr⟩

lemma rowsumSrcLoop_err (L : Nat) (hL0 : L ≠ 0) (good : List (List Int))
    (hg : ∀ r ∈ good, r.length = L) (bad : List Int) (hb : bad.length ≠ L)
    (rest2 : List (Except String (List Int))) (elems presum : List (List Int)) :
    rowsumSrcLoop L elems presum (good.map Except.ok ++ Except.ok bad :: rest2)
      = .err (.shapeMismatch L bad.length) := by
  induction good generalizing elems presum with
  | nil =>
    simp only [List.map_nil, List.nil_append, rowsumSrcLoop, if_neg hL0]
    rw [if_pos (fun h => hb h.symm)]
  | cons g gs ih =>
    have hgl : g.length = L := hg g (by simp)
    simp only [List.map_cons, List.cons_append, rowsumSrcLoop, if_neg hL0, hgl,
      if_neg (by simp : ¬L ≠ L)]
    exact ih (fun r hr => hg r (by simp [hr])) _ _

lemma allsumSrcLoop_err (L : Nat) (hL0 : L ≠ 0) (good : List (List Int))
    (hg : ∀ r ∈ good, r.length = L) (bad : List Int) (hb : bad.length ≠ L)
    (rest2 : List (Except String (List Int))) (elems acc : List (List Int))
    (hlast : ((acc.getLast?).getD (List.replicate L 0)).length = L) :
    allsumSrcLoop L elems acc (good.map Except.ok ++ Except.ok bad :: rest2)
      = .err (.shapeMismatch L bad.length) := by
  induction good generalizing elems acc with
  | nil =>
    simp only [List.map_nil, List.nil_append, allsumSrcLoop]
    rw [if_pos ⟨hL0, fun h => hb h.symm⟩]
  | cons g gs ih =>
    have hgl : g.length = L := hg g (by simp)
    set psr := (acc.getLast?).getD (List.replicate L 0) with hpsr
    have hpre : precomp_allsum g acc = some (sumRowWith 0 g psr) := by
      show precompAllsumAux 0 g ((acc.getLast?).getD (List.replicate g.length 0)) = _
      rw [hgl, ← hpsr]
      exact precompAllsumAux_eq_sumRowWith 0 g psr (by omega)
    have hcond : ¬(L ≠ 0 ∧ L ≠ g.length) := by
      rw [hgl]
      simp
    simp only [List.map_cons, List.cons_append, allsumSrcLoop, if_neg hcond, hpre]
    have hif : (if L = 0 then g.length else L) = L := by
      simp [hL0]
    rw [hif]
    refine ih (fun r hr => hg r (by simp [hr])) _ _ ?_
    have hcurlen : (sumRowWith 0 g psr).length = L := by
      rw [sumRowWith_length 0 g psr (by omega)]
      exact hgl
    simp [List.getLast?_append, hcurlen]

lemma rowsumSrcLoop_isErr_of_err (ncols : Nat) (elems presum : List (List Int))
    (source : List (Except String (List Int))) (msg : String)
    (h : Except.error msg ∈ source) :
    (rowsumSrcLoop ncols elems presum source).isErr = true := by
  induction source generalizing ncols elems presum with
  | nil => simp at h
  | cons rec rest ih =>
    cases rec with
    | error m2 => simp [rowsumSrcLoop, RunResult.isErr]
    | ok row =>
      have h' : Except.error msg ∈ rest := by
        rcases List.mem_cons.mp h with h1 | h2
        · exact absurd h1 (by simp)
        · exact h2
      simp only [rowsumSrcLoop]
      by_cases h0 : ncols = 0
      · rw [if_pos h0]
        exact ih _ _ _ h'
      · rw [if_neg h0]
        by_cases h1 : ncols ≠ row.length
        · rw [if_pos h1]
          simp [RunResult.isErr]
        · rw [if_neg h1]
          exact ih _ _ _ h'

lemma allsumSrcLoop_not_ok_of_err (ncols : Nat) (elems acc : List (List Int))
    (source : List (Except String (List Int))) (msg : String)
    (h : Except.error msg ∈ source) :
    (allsumSrcLoop ncols elems acc source).isOk = false := by
  induction source generalizing ncols elems acc with
  | nil => simp at h
  | cons rec rest ih =>
    cases rec with
    | error m2 => simp [allsumSrcLoop, RunResult.isOk]
    | ok row =>
      have h' : Except.error msg ∈ rest := by
        rcases List.mem_cons.mp h with h1 | h2
        · exact absurd h1 (by simp)
        · exact h2
      by_cases hc : ncols ≠ 0 ∧ ncols ≠ row.length
      · simp only [allsumSrcLoop, if_pos hc]
        simp [RunResult.isOk]
      · cases hpre : precomp_allsum row acc with
        | none =>
          simp only [allsumSrcLoop, if_neg hc, hpre]
          simp [RunResult.isOk]
        | some asrow =>
          simp only [allsumSrcLoop, if_neg hc, hpre]
          exact ih _ _ _ h'

lemma rowsumSrcLoop_ok_src (ncols : Nat) (elems presum : List (List Int))
    (source : List (Except String (List Int))) (m : RowsumMatrix)
    (h : rowsumSrcLoop ncols elems presum source = .ok m) :
    ∃ rows, source = rows.map Except.ok ∧ m.elems = elems ++ rows := by
  induction source generalizing ncols elems presum with
  | nil =>
    refine ⟨[], rfl, ?_⟩
    have h' : RunResult.ok (⟨ncols, elems, presum⟩ : RowsumMatrix) = .ok m := h
    injection h' with h'
    rw [← h']
    simp
  | cons rec rest ih =>
    cases rec with
    | error msg => exact absurd h (by simp [rowsumSrcLoop])
    | ok row =>
      simp only [rowsumSrcLoop] at h
      by_cases h0 : ncols = 0
      · rw [if_pos h0] at h
        obtain ⟨rows, hsrc, helems⟩ := ih _ _ _ h
        exact ⟨row :: rows, by simp [hsrc], by simp [helems]⟩
      · rw [if_neg h0] at h
        by_cases h1 : ncols ≠ row.length
        · rw [if_pos h1] at h
          exact absurd h (by simp)
        · rw [if_neg h1] at h
          obtain ⟨rows, hsrc, helems⟩ := ih _ _ _ h
          exact ⟨row :: rows, by simp [hsrc], by simp [helems]⟩

lemma allsumSrcLoop_ok_src (ncols : Nat) (elems acc : List (List Int))
    (source : List (Except String (List Int))) (m : AllsumMatrix)
    (h : allsumSrcLoop ncols elems acc source = .ok m) :
    ∃ rows, source = rows.map Except.ok ∧ m.elems = elems ++ rows := by
  induction source generalizing ncols elems acc with
  | nil =>
    refine ⟨[], rfl, ?_⟩
    have h' : RunResult.ok (⟨ncols, elems, acc⟩ : AllsumMatrix) = .ok m := h
    injection h' with h'
    rw [← h']
    simp
  | cons rec rest ih =>
    cases rec with
    | error msg => exact absurd h (by simp [allsumSrcLoop])
    | ok row =>
      by_cases hc : ncols ≠ 0 ∧ ncols ≠ row.length
      · simp only [allsumSrcLoop, if_pos hc] at h
        exact absurd h (by simp)
      · cases hpre : precomp_allsum row acc with
        | none =>
          simp only [allsumSrcLoop, if_neg hc, hpre] at h
          exact absurd h (by simp)
        | some asrow =>
          simp only [allsumSrcLoop, if_neg hc, hpre] at h
          obtain ⟨rows, hsrc, helems⟩ := ih _ _ _ h
          exact ⟨row :: rows, by simp [hsrc], by simp [helems]⟩

/-! ### Shape of successfully constructed matrices -/

lemma rowsumNew_ok_parts (L : Nat) (r0 : List Int) (rest : List (List Int))
    (hL : ∀ r ∈ r0 :: rest, r.length = L) (m : RowsumMatrix)
    (hm : rowsumNew (r0 :: rest) = .ok m) :
    m = ⟨L, r0 :: rest, (r0 :: rest).map precomp_rowsum⟩ := by
  have h := rowsumNew_eq L r0 rest hL
  rw [hm] at h
  injection h with h

lemma allsumNew_ok_parts (L : Nat) (r0 : List Int) (rest : List (List Int))
    (hL : ∀ r ∈ r0 :: rest, r.length = L) (m : AllsumMatrix)
    (hm : allsumNew (r0 :: rest) = .ok m) :
    m = ⟨L, r0 :: rest, allsumTable L (r0 :: rest)⟩ := by
  have h := allsumNew_eq L r0 rest hL
  rw [hm] at h
  injection h with h

lemma rowsumNew_nil (m : RowsumMatrix) (hm : rowsumNew [] = .ok m) :
    m = ⟨0, [], []⟩ := by
  have h' : RunResult.ok (⟨0, [], []⟩ : RowsumMatrix) = .ok m := hm
  injection h' with h'
  exact h'.symm

lemma allsumNew_nil (m : AllsumMatrix) (hm : allsumNew [] = .ok m) :
    m = ⟨0, [], []⟩ := by
  have h' : RunResult.ok (⟨0, [], []⟩ : AllsumMatrix) = .ok m := hm
  injection h' with h'
  exact h'.symm

lemma map_precomp_getD (rows : List (List Int)) (j : Nat) (hj : j < rows.length) :
    (rows.map precomp_rowsum).getD j [] = precomp_rowsum (rows.getD j []) := by
  refine getD_eq_of_get? [] ?_
  rw [List.get?_eq_getElem?, List.getElem?_map, ← List.get?_eq_getElem?,
    get?_eq_some_getDP [] hj]
  rfl

lemma allsumTable_row_length (L : Nat) (rows : List (List Int))
    (hL : ∀ r ∈ rows, r.length = L) :
    ∀ r ∈ allsumTable L rows, r.length = L := by
  intro r hr
  obtain ⟨j, hj⟩ := List.mem_iff_get?.mp hr
  have hjl : j < (allsumTable L rows).length := by
    by_contra hc
    rw [List.get?_eq_none.mpr (by omega)] at hj
    cases hj
  have hjr : j < rows.length := by
    rw [allsumTable, allsumTableAux_length] at hjl
    exact hjl
  obtain ⟨tr, hget, hlen, _⟩ := allsumTableAux_get? rows (List.replicate L 0)
    hL (by simp) hjr
  have : some r = some tr := by
    rw [← hj]
    exact hget
  injection this with h
  rw [h]
  exact hlen

/-! ### Claim theorems -/

/-- Sample matrix rows from the source commentary. -/
def sampleRows : List (List Int) := [[1, 2, 5, 11], [5, 9, 11, 15], [2, 17, 8, -10]]

/-- The `rowsum` matrix built from `sampleRows`. -/
def sampleRowsum : RowsumMatrix :=
  ⟨4, sampleRows, [[1, 3, 8, 19], [5, 14, 25, 40], [2, 19, 27, 17]]⟩

/-- The `allsum` matrix built from `sampleRows`. -/
def sampleAllsum : AllsumMatrix :=
  ⟨4, sampleRows, [[1, 3, 8, 19], [6, 17, 33, 59], [8, 36, 60, 76]]⟩

/-- C10: on a `rowsum` matrix, a query that passes the `endx`/`endy`
validation but has `starty > endy` returns `Ok 0`, because the per-row
accumulation loop over `starty..endy` is empty. -/
theorem claim_C10 (rows : List (List Int)) (m : RowsumMatrix)
    (startx starty endx endy : Nat) (hm : rowsumNew rows = .ok m)
    (hex : endx < m.ncols) (hey : endy < m.elems.length) (hy : starty > endy) :
    m.sum startx starty endx endy = .ok 0 := by
  have hrange : endy + 1 - starty = 0 := by omega
  simp only [RowsumMatrix.sum, hrange, List.range'_zero, rowsumQueryLoop]
  rw [if_neg (by omega), if_neg (by omega)]

/-- Witness for C10 at a concrete matrix and query. -/
theorem claim_C10_witness :
    RowsumMatrix.sum ⟨1, [[7]], [[7]]⟩ 0 2 0 0 = .ok 0 :=
  claim_C10 [[7]] ⟨1, [[7]], [[7]]⟩ 0 2 0 0 (by decide) (by decide) (by decide)
    (by decide)

/-- C4: in both variants, `sum` returns an error whenever `endx ≥ ncols`
or `endy ≥` row count; on a matrix constructed from empty input (where
`ncols = 0`), every query fails validation because any `endx ≥ 0`
violates `endx < ncols`. -/
theorem claim_C4 (mr : RowsumMatrix) (ma : AllsumMatrix)
    (startx starty endx endy : Nat) :
    (endx ≥ mr.ncols ∨ endy ≥ mr.elems.length →
      ∃ e, mr.sum startx starty endx endy = .err e)
    ∧ (endx ≥ ma.ncols ∨ endy ≥ ma.elems.length →
      ∃ e, ma.sum startx starty endx endy = .err e)
    ∧ (∀ m0 : RowsumMatrix, rowsumNew [] = .ok m0 →
        m0.ncols = 0 ∧ ∃ e, m0.sum startx starty endx endy = .err e)
    ∧ (∀ m0 : AllsumMatrix, allsumNew [] = .ok m0 →
        m0.ncols = 0 ∧ ∃ e, m0.sum startx starty endx endy = .err e) := by
  have hrow : ∀ m : RowsumMatrix, endx ≥ m.ncols ∨ endy ≥ m.elems.length →
      ∃ e, m.sum startx starty endx endy = .err e := by
    intro m h
    by_cases h1 : endx ≥ m.ncols
    · exact ⟨_, by rw [RowsumMatrix.sum, if_pos h1]⟩
    · have h2 : endy ≥ m.elems.length := h.resolve_left h1
      exact ⟨_, by rw [RowsumMatrix.sum, if_neg h1, if_pos h2]⟩
  have hall : ∀ m : AllsumMatrix, endx ≥ m.ncols ∨ endy ≥ m.elems.length →
      ∃ e, m.sum startx starty endx endy = .err e := by
    intro m h
    by_cases h1 : endx ≥ m.ncols
    · exact ⟨_, by rw [AllsumMatrix.sum, if_pos h1]⟩
    · have h2 : endy ≥ m.elems.length := h.resolve_left h1
      exact ⟨_, by rw [AllsumMatrix.sum, if_neg h1, if_pos h2]⟩
  refine ⟨hrow mr, hall ma, ?_, ?_⟩
  · intro m0 hm0
    have hp := rowsumNew_nil m0 hm0
    subst hp
    exact ⟨rfl, hrow _ (Or.inl (Nat.zero_le _))⟩
  · intro m0 hm0
    have hp := allsumNew_nil m0 hm0
    subst hp
    exact ⟨rfl, hall _ (Or.inl (Nat.zero_le _))⟩

/-- Witness for C4: out-of-range queries on the sample matrices and any
query on empty-input matrices produce errors. -/
theorem claim_C4_witness :
    (∃ e, sampleRowsum.sum 1 1 9 2 = .err e)
    ∧ (∃ e, sampleAllsum.sum 1 1 3 9 = .err e)
    ∧ (∃ e, RowsumMatrix.sum ⟨0, [], []⟩ 0 0 0 0 = .err e)
    ∧ (∃ e, AllsumMatrix.sum ⟨0, [], []⟩ 0 0 0 0 = .err e) := by
  have h1 := claim_C4 sampleRowsum sampleAllsum 1 1 9 2
  have h2 := claim_C4 sampleRowsum sampleAllsum 1 1 3 9
  have h3 := claim_C4 (⟨0, [], []⟩ : RowsumMatrix) (⟨0, [], []⟩ : AllsumMatrix) 0 0 0 0
  exact ⟨h1.1 (Or.inl (by decide)), h2.2.1 (Or.inr (by decide)),
    (h3.2.2.1 ⟨0, [], []⟩ (by decide)).2, (h3.2.2.2 ⟨0, [], []⟩ (by decide)).2⟩

/-- C2: on a `rowsum` matrix constructed from equal-length rows, every
in-range query returns `Ok` of the rectangle sum of the original
elements, and position `c` of each `presum` row holds
`row[0] + ... + row[c]`. -/
theorem claim_C2 (L : Nat) (rows : List (List Int)) (hL : ∀ r ∈ rows, r.length = L)
    (m : RowsumMatrix) (hm : rowsumNew rows = .ok m)
    (startx starty endx endy : Nat) (hx : startx ≤ endx) (hex : endx < m.ncols)
    (hy : starty ≤ endy) (hey : endy < m.elems.length) :
    m.sum startx starty endx endy = .ok (rectSum m.elems startx starty endx endy)
    ∧ ∀ j, j < m.presum.length → ∀ c, c < L →
        (m.presum.getD j []).getD c 0 = ((m.elems.getD j []).take (c + 1)).sum := by
  cases rows with
  | nil =>
    exfalso
    have hp := rowsumNew_nil m hm
    rw [hp] at hex
    simp at hex
  | cons r0 rest =>
    have hp := rowsumNew_ok_parts L r0 rest hL m hm
    subst hp
    constructor
    · exact rowsum_sum_value L (r0 :: rest) hL _ hm startx starty endx endy hx hex hy hey
    · intro j hj c hc
      have hjlen : j < (r0 :: rest).length := by simpa using hj
      have hrlen : ((r0 :: rest).getD j []).length = L := getD_length_eq hL hjlen
      show (((r0 :: rest).map precomp_rowsum).getD j []).getD c 0 = _
      rw [map_precomp_getD _ j hjlen]
      exact getD_of_get?_some (precomp_rowsum_get? _ c (by omega))

/-- Witness for C2 on the sample matrix: the worked query and one
`presum` entry. -/
theorem claim_C2_witness :
    sampleRowsum.sum 1 1 3 2 = .ok (rectSum sampleRowsum.elems 1 1 3 2)
    ∧ (sampleRowsum.presum.getD 2 []).getD 3 0
        = ((sampleRowsum.elems.getD 2 []).take 4).sum := by
  have h := claim_C2 4 sampleRows (by decide) sampleRowsum (by decide) 1 1 3 2
    (by decide) (by decide) (by decide) (by decide)
  exact ⟨h.1, h.2 2 (by decide) 3 (by decide)⟩

/-- C3: on an `allsum` matrix constructed from equal-length rows, each
auxiliary entry at row `j`, column `c` equals the sum of all original
cells with row index at most `j` and column index at most `c`, and every
in-range query returns `Ok` of the rectangle sum computed by four-point
inclusion-exclusion. -/
theorem claim_C3 (L : Nat) (rows : List (List Int)) (hL : ∀ r ∈ rows, r.length = L)
    (m : AllsumMatrix) (hm : allsumNew rows = .ok m)
    (startx starty endx endy : Nat) (hx : startx ≤ endx) (hex : endx < m.ncols)
    (hy : starty ≤ endy) (hey : endy < m.elems.length) :
    m.sum startx starty endx endy = .ok (rectSum m.elems startx starty endx endy)
    ∧ ∀ j, j < m.allsum.length → ∀ c, c < L →
        (m.allsum.getD j []).getD c 0 = rectSum m.elems 0 0 c j := by
  cases rows with
  | nil =>
    exfalso
    have hp := allsumNew_nil m hm
    rw [hp] at hex
    simp at hex
  | cons r0 rest =>
    have hp := allsumNew_ok_parts L r0 rest hL m hm
    subst hp
    constructor
    · exact allsum_sum_value L (r0 :: rest) hL _ hm startx starty endx endy hx hex hy hey
    · intro j hj c hc
      have hjlen : j < (r0 :: rest).length := by
        have : j < (allsumTable L (r0 :: rest)).length := hj
        rw [allsumTable, allsumTableAux_length] at this
        exact this
      obtain ⟨tr, hget, hlen, hval⟩ := allsumTableAux_get? (r0 :: rest)
        (List.replicate L 0) hL (by simp) hjlen
      have hgd : (allsumTable L (r0 :: rest)).getD j [] = tr := getD_eq_of_get? [] hget
      show ((allsumTable L (r0 :: rest)).getD j []).getD c 0 = _
      rw [hgd, hval c hc, replicate_getD,
        rectSum_eq_blockSum hL hc hjlen (by omega) (by omega)]
      simp [blockSum_zero_rows, blockSum_zero_cols]

/-- Witness for C3 on the sample matrix: the worked query and one table
entry. -/
theorem claim_C3_witness :
    sampleAllsum.sum 1 1 3 2 = .ok (rectSum sampleAllsum.elems 1 1 3 2)
    ∧ (sampleAllsum.allsum.getD 2 []).getD 3 0 = rectSum sampleAllsum.elems 0 0 3 2 := by
  have h := claim_C3 4 sampleRows (by decide) sampleAllsum (by decide) 1 1 3 2
    (by decide) (by decide) (by decide) (by decide)
  exact ⟨h.1, h.2 2 (by decide) 3 (by decide)⟩

/-- C1: the two variants agree: matrices built by both constructors from
the same equal-length rows return the same `Ok` value on every in-range
query rectangle. -/
theorem claim_C1 (L : Nat) (rows : List (List Int)) (hL : ∀ r ∈ rows, r.length = L)
    (mr : RowsumMatrix) (ma : AllsumMatrix)
    (hmr : rowsumNew rows = .ok mr) (hma : allsumNew rows = .ok ma)
    (startx starty endx endy : Nat) (hx : startx ≤ endx) (hex : endx < mr.ncols)
    (hy : starty ≤ endy) (hey : endy < mr.elems.length) :
    ∃ v, mr.sum startx starty endx endy = .ok v
      ∧ ma.sum startx starty endx endy = .ok v := by
  cases rows with
  | nil =>
    exfalso
    have hp := rowsumNew_nil mr hmr
    rw [hp] at hex
    simp at hex
  | cons r0 rest =>
    have hpr := rowsumNew_ok_parts L r0 rest hL mr hmr
    have hpa := allsumNew_ok_parts L r0 rest hL ma hma
    have haL : ma.ncols = L := by rw [hpa]
    have hrL : mr.ncols = L := by rw [hpr]
    have helen : ma.elems.length = mr.elems.length := by rw [hpa, hpr]
    refine ⟨rectSum (r0 :: rest) startx starty endx endy, ?_, ?_⟩
    · exact rowsum_sum_value L _ hL mr hmr startx starty endx endy hx hex hy hey
    · exact allsum_sum_value L _ hL ma hma startx starty endx endy hx (by omega)
        hy (by omega)

/-- Witness for C1 on the sample matrices at the worked query. -/
theorem claim_C1_witness :
    ∃ v, sampleRowsum.sum 1 1 3 2 = .ok v ∧ sampleAllsum.sum 1 1 3 2 = .ok v :=
  claim_C1 4 sampleRows (by decide) sampleRowsum sampleAllsum (by decide) (by decide)
    1 1 3 2 (by decide) (by decide) (by decide) (by decide)

/-- C8 as stated is false: the `rowsum` constructor accepts the rows
`[[], [1]]` (an empty row followed by a length-1 row), yielding a
successfully constructed matrix with `ncols = 1` and two rows, so the
rectangle `startx = endx = 0`, `starty = 0`, `endy = 1` is in range and
`k = 0` is a valid horizontal split; but the full query and the top part
query both abort on an out-of-bounds index instead of returning the `Ok`
values the decomposition law speaks about. -/
theorem claim_C8_counterexample :
    rowsumNew [[], [1]] = .ok ⟨1, [[], [1]], [[], [1]]⟩
    ∧ RowsumMatrix.sum ⟨1, [[], [1]], [[], [1]]⟩ 0 0 0 1 = .crash
    ∧ RowsumMatrix.sum ⟨1, [[], [1]], [[], [1]]⟩ 0 0 0 0 = .crash := by decide

/-- C8 amended: on matrices of either variant constructed from
equal-length rows, the decomposition law holds: for an in-range
rectangle and a vertical split column `k` with `startx ≤ k < endx` (or a
horizontal split row `k` with `starty ≤ k < endy`), both parts return
`Ok` values and the full query returns `Ok` of their sum. -/
theorem claim_C8_amended (L : Nat) (rows : List (List Int))
    (hL : ∀ r ∈ rows, r.length = L)
    (mr : RowsumMatrix) (ma : AllsumMatrix)
    (hmr : rowsumNew rows = .ok mr) (hma : allsumNew rows = .ok ma)
    (startx starty endx endy k : Nat) (hx : startx ≤ endx) (hex : endx < mr.ncols)
    (hy : starty ≤ endy) (hey : endy < mr.elems.length) :
    ((startx ≤ k ∧ k < endx) → ∃ v1 v2,
        mr.sum startx starty k endy = .ok v1
        ∧ mr.sum (k + 1) starty endx endy = .ok v2
        ∧ mr.sum startx starty endx endy = .ok (v1 + v2))
    ∧ ((startx ≤ k ∧ k < endx) → ∃ v1 v2,
        ma.sum startx starty k endy = .ok v1
        ∧ ma.sum (k + 1) starty endx endy = .ok v2
        ∧ ma.sum startx starty endx endy = .ok (v1 + v2))
    ∧ ((starty ≤ k ∧ k < endy) → ∃ v1 v2,
        mr.sum startx starty endx k = .ok v1
        ∧ mr.sum startx (k + 1) endx endy = .ok v2
        ∧ mr.sum startx starty endx endy = .ok (v1 + v2))
    ∧ ((starty ≤ k ∧ k < endy) → ∃ v1 v2,
        ma.sum startx starty endx k = .ok v1
        ∧ ma.sum startx (k + 1) endx endy = .ok v2
        ∧ ma.sum startx starty endx endy = .ok (v1 + v2)) := by
  cases rows with
  | nil =>
    exfalso
    have hp := rowsumNew_nil mr hmr
    rw [hp] at hex
    simp at hex
  | cons r0 rest =>
    have hpr := rowsumNew_ok_parts L r0 rest hL mr hmr
    have hpa := allsumNew_ok_parts L r0 rest hL ma hma
    have hrL : mr.ncols = L := by rw [hpr]
    have haL : ma.ncols = L := by rw [hpa]
    have hrlen : mr.elems.length = (r0 :: rest).length := by rw [hpr]
    have halen : ma.elems.length = (r0 :: rest).length := by rw [hpa]
    refine ⟨?_, ?_, ?_, ?_⟩
    · rintro ⟨hk1, hk2⟩
      refine ⟨rectSum (r0 :: rest) startx starty k endy,
        rectSum (r0 :: rest) (k + 1) starty endx endy, ?_, ?_, ?_⟩
      · exact rowsum_sum_value L _ hL mr hmr startx starty k endy hk1 (by omega) hy hey
      · exact rowsum_sum_value L _ hL mr hmr (k + 1) starty endx endy (by omega) hex hy hey
      · have hfull := rowsum_sum_value L _ hL mr hmr startx starty endx endy hx hex hy hey
        rw [rectSum_split_vert (r0 :: rest) startx starty endx endy k hk1 hk2] at hfull
        exact hfull
    · rintro ⟨hk1, hk2⟩
      refine ⟨rectSum (r0 :: rest) startx starty k endy,
        rectSum (r0 :: rest) (k + 1) starty endx endy, ?_, ?_, ?_⟩
      · exact allsum_sum_value L _ hL ma hma startx starty k endy hk1 (by omega) hy (by omega)
      · exact allsum_sum_value L _ hL ma hma (k + 1) starty endx endy (by omega) (by omega)
          hy (by omega)
      · have hfull := allsum_sum_value L _ hL ma hma startx starty endx endy hx (by omega)
          hy (by omega)
        rw [rectSum_split_vert (r0 :: rest) startx starty endx endy k hk1 hk2] at hfull
        exact hfull
    · rintro ⟨hk1, hk2⟩
      refine ⟨rectSum (r0 :: rest) startx starty endx k,
        rectSum (r0 :: rest) startx (k + 1) endx endy, ?_, ?_, ?_⟩
      · exact rowsum_sum_value L _ hL mr hmr startx starty endx k hx hex hk1 (by omega)
      · exact rowsum_sum_value L _ hL mr hmr startx (k + 1) endx endy hx hex (by omega) hey
      · have hfull := rowsum_sum_value L _ hL mr hmr startx starty endx endy hx hex hy hey
        rw [rectSum_split_horiz (r0 :: rest) startx starty endx endy k hk1 hk2] at hfull
        exact hfull
    · rintro ⟨hk1, hk2⟩
      refine ⟨rectSum (r0 :: rest) startx starty endx k,
        rectSum (r0 :: rest) startx (k + 1) endx endy, ?_, ?_, ?_⟩
      · exact allsum_sum_value L _ hL ma hma startx starty endx k hx (by omega) hk1 (by omega)
      · exact allsum_sum_value L _ hL ma hma startx (k + 1) endx endy hx (by omega)
          (by omega) (by omega)
      · have hfull := allsum_sum_value L _ hL ma hma startx starty endx endy hx (by omega)
          hy (by omega)
        rw [rectSum_split_horiz (r0 :: rest) startx starty endx endy k hk1 hk2] at hfull
        exact hfull

/-- Witness for the amended C8 on the sample matrices: a vertical split
at column 2 for the `rowsum` variant and a horizontal split at row 1 for
the `allsum` variant. -/
theorem claim_C8_amended_witness :
    (∃ v1 v2, sampleRowsum.sum 1 1 2 2 = .ok v1 ∧ sampleRowsum.sum 3 1 3 2 = .ok v2
      ∧ sampleRowsum.sum 1 1 3 2 = .ok (v1 + v2))
    ∧ (∃ v1 v2, sampleAllsum.sum 1 1 3 1 = .ok v1 ∧ sampleAllsum.sum 1 2 3 2 = .ok v2
      ∧ sampleAllsum.sum 1 1 3 2 = .ok (v1 + v2)) := by
  have hv := (claim_C8_amended 4 sampleRows (by decide) sampleRowsum sampleAllsum
    (by decide) (by decide) 1 1 3 2 2 (by decide) (by decide) (by decide)
    (by decide)).1 ⟨by decide, by decide⟩
  have hh := (claim_C8_amended 4 sampleRows (by decide) sampleRowsum sampleAllsum
    (by decide) (by decide) 1 1 3 2 1 (by decide) (by decide) (by decide)
    (by decide)).2.2.2 ⟨by decide, by decide⟩
  exact ⟨hv, hh⟩

/-- C9: on a matrix of either variant whose original and auxiliary rows
all have length `ncols ≥ 1` and whose auxiliary structure has one row
per original row, every query with `startx ≤ endx < ncols` and
`starty ≤ endy <` row count stays in bounds: the embedded total function
returns an `Ok` value and never reaches its out-of-bounds (crash)
branch. -/
theorem claim_C9 (mr : RowsumMatrix) (ma : AllsumMatrix)
    (startx starty endx endy : Nat)
    (hrn : 1 ≤ mr.ncols)
    (hre : ∀ r ∈ mr.elems, r.length = mr.ncols)
    (hrp : ∀ r ∈ mr.presum, r.length = mr.ncols)
    (hrl : mr.presum.length = mr.elems.length)
    (han : 1 ≤ ma.ncols)
    (hae : ∀ r ∈ ma.elems, r.length = ma.ncols)
    (hat : ∀ r ∈ ma.allsum, r.length = ma.ncols)
    (hal : ma.allsum.length = ma.elems.length)
    (hx : startx ≤ endx) (hrex : endx < mr.ncols) (hy : starty ≤ endy)
    (hrey : endy < mr.elems.length)
    (haex : endx < ma.ncols) (haey : endy < ma.elems.length) :
    (∃ v, mr.sum startx starty endx endy = .ok v)
    ∧ (∃ v, ma.sum startx starty endx endy = .ok v) := by
  constructor
  · exact rowsum_sum_ok_of_bounds mr startx starty endx endy hrp (by omega)
      hrex hrey (by omega)
  · exact allsum_sum_ok_of_bounds ma startx starty endx endy hat (by omega)
      haex haey (by omega) (by omega)

/-- Witness for C9 on the sample matrices. -/
theorem claim_C9_witness :
    (∃ v, sampleRowsum.sum 0 0 3 2 = .ok v)
    ∧ (∃ v, sampleAllsum.sum 0 0 3 2 = .ok v) :=
  claim_C9 sampleRowsum sampleAllsum 0 0 3 2 (by decide) (by decide) (by decide)
    (by decide) (by decide) (by decide) (by decide) (by decide) (by decide)
    (by decide) (by decide) (by decide) (by decide) (by decide)

/-- C7 as stated is false: it claims an `Ok` result for all
ordering-violating `startx`/`starty`. On the 1×1 matrix built from
`[[5]]`, the query `(startx, starty, endx, endy) = (2, 0, 0, 0)` passes
end-coordinate validation and violates `startx ≤ endx`, but the `rowsum`
variant indexes the prefix-sum row at `startx - 1 = 1`, out of bounds,
and aborts instead of returning `Ok`; the `allsum` variant likewise
aborts for `(0, 2, 0, 0)`, indexing the table at row
`starty - 1 = 1`. -/
theorem claim_C7_counterexample :
    rowsumNew [[5]] = .ok ⟨1, [[5]], [[5]]⟩
    ∧ RowsumMatrix.sum ⟨1, [[5]], [[5]]⟩ 2 0 0 0 = .crash
    ∧ allsumNew [[5]] = .ok ⟨1, [[5]], [[5]]⟩
    ∧ AllsumMatrix.sum ⟨1, [[5]], [[5]]⟩ 0 2 0 0 = .crash := by decide

/-- C7 amended: on matrices constructed from equal-length rows, a query
that passes end-coordinate validation but violates the coordinate
ordering still returns an `Ok` result (a silently wrong value) provided
`startx ≤ ncols` and `starty ≤` row count; outside those bounds the
query aborts on an out-of-bounds index instead. -/
theorem claim_C7_amended (L : Nat) (rows : List (List Int))
    (hL : ∀ r ∈ rows, r.length = L)
    (mr : RowsumMatrix) (ma : AllsumMatrix)
    (hmr : rowsumNew rows = .ok mr) (hma : allsumNew rows = .ok ma)
    (startx starty endx endy : Nat)
    (hex : endx < mr.ncols) (hey : endy < mr.elems.length)
    (hord : startx > endx ∨ starty > endy)
    (hsx : startx ≤ mr.ncols) (hsy : starty ≤ mr.elems.length) :
    (∃ v, mr.sum startx starty endx endy = .ok v)
    ∧ (∃ v, ma.sum startx starty endx endy = .ok v) := by
  cases rows with
  | nil =>
    exfalso
    have hp := rowsumNew_nil mr hmr
    rw [hp] at hex
    simp at hex
  | cons r0 rest =>
    have hpr := rowsumNew_ok_parts L r0 rest hL mr hmr
    have hpa := allsumNew_ok_parts L r0 rest hL ma hma
    have hrL : mr.ncols = L := by rw [hpr]
    have haL : ma.ncols = L := by rw [hpa]
    have hrlen : mr.elems.length = (r0 :: rest).length := by rw [hpr]
    have halen : ma.elems.length = (r0 :: rest).length := by rw [hpa]
    have hrpre : ∀ r ∈ mr.presum, r.length = mr.ncols := by
      rw [hpr]
      intro r hr
      obtain ⟨row, hrow, hmap⟩ := List.mem_map.mp hr
      rw [← hmap]
      show (precomp_rowsum row).length = L
      rw [precomp_rowsum_length]
      exact hL row hrow
    have hrplen : mr.elems.length ≤ mr.presum.length := by
      rw [hpr]
      simp
    have hatab : ∀ r ∈ ma.allsum, r.length = ma.ncols := by
      rw [hpa]
      exact allsumTable_row_length L (r0 :: rest) hL
    have hallen : ma.elems.length ≤ ma.allsum.length := by
      rw [hpa]
      show (r0 :: rest).length ≤ (allsumTable L (r0 :: rest)).length
      rw [allsumTable, allsumTableAux_length]
    constructor
    · exact rowsum_sum_ok_of_bounds mr startx starty endx endy hrpre hrplen hex hey hsx
    · exact allsum_sum_ok_of_bounds ma startx starty endx endy hatab hallen
        (by omega) (by omega) (by omega) (by omega)

/-- Witness for the amended C7: an ordering-violating query with
`startx ≤ ncols` returns `Ok` on both variants of the matrix built from
`[[5, 6]]`. -/
theorem claim_C7_amended_witness :
    (∃ v, RowsumMatrix.sum ⟨2, [[5, 6]], [[5, 11]]⟩ 2 0 1 0 = .ok v)
    ∧ (∃ v, AllsumMatrix.sum ⟨2, [[5, 6]], [[5, 11]]⟩ 2 0 1 0 = .ok v) :=
  claim_C7_amended 2 [[5, 6]] (by decide) ⟨2, [[5, 6]], [[5, 11]]⟩
    ⟨2, [[5, 6]], [[5, 11]]⟩ (by decide) (by decide) 2 0 1 0 (by decide) (by decide)
    (Or.inl (by decide)) (by decide) (by decide)

/-- C5 as stated is false: on the input `[[], [1]]`, the second row's
length (1) differs from the first row's length (0), yet the `rowsum`
constructor succeeds — a zero-length first row never establishes
`ncols`, so validation is skipped and the resulting matrix has rows of
unequal lengths; the `allsum` constructor does not fail with a
shape-mismatch error either, but aborts on an out-of-bounds index while
building the second summed-area row. -/
theorem claim_C5_counterexample :
    rowsumNew [[], [1]] = .ok ⟨1, [[], [1]], [[], [1]]⟩
    ∧ allsumNew [[], [1]] = .crash
    ∧ ([1] : List Int).length ≠ ([] : List Int).length := by decide

/-- C5 amended: provided the first row is non-empty, construction of
either variant succeeds exactly when every later row has the first
row's length; on the first offending row it fails with a shape-mismatch
error carrying the established `ncols` (the first row's length) and the
offending row's length, and every successfully constructed matrix has
all rows of length `ncols`. -/
theorem claim_C5_amended (r0 : List Int) (rest : List (List Int)) (h0 : r0 ≠ []) :
    ((rowsumNew (r0 :: rest)).isOk = true ↔ ∀ r ∈ rest, r.length = r0.length)
    ∧ ((allsumNew (r0 :: rest)).isOk = true ↔ ∀ r ∈ rest, r.length = r0.length)
    ∧ (∀ good bad rest2, rest = good ++ bad :: rest2 →
        (∀ r ∈ good, r.length = r0.length) → bad.length ≠ r0.length →
        rowsumNew (r0 :: rest) = .err (.shapeMismatch r0.length bad.length)
        ∧ allsumNew (r0 :: rest) = .err (.shapeMismatch r0.length bad.length))
    ∧ (∀ m : RowsumMatrix, rowsumNew (r0 :: rest) = .ok m →
        ∀ r ∈ m.elems, r.length = m.ncols)
    ∧ (∀ m : AllsumMatrix, allsumNew (r0 :: rest) = .ok m →
        ∀ r ∈ m.elems, r.length = m.ncols) := by
  have hl0 : r0.length ≠ 0 := fun h => h0 (List.length_eq_zero.mp h)
  have herr : ∀ good bad rest2, rest = good ++ bad :: rest2 →
      (∀ r ∈ good, r.length = r0.length) → bad.length ≠ r0.length →
      rowsumNew (r0 :: rest) = .err (.shapeMismatch r0.length bad.length)
      ∧ allsumNew (r0 :: rest) = .err (.shapeMismatch r0.length bad.length) := by
    intro good bad rest2 hdec hg hb
    subst hdec
    constructor
    · show rowsumSrcLoop 0 [] [] ((r0 :: good ++ bad :: rest2).map Except.ok) = _
      have hmap : (r0 :: good ++ bad :: rest2).map Except.ok
          = Except.ok r0 :: (good.map Except.ok
              ++ Except.ok bad :: rest2.map (@Except.ok String (List Int))) := by
        simp
      rw [hmap, rowsumSrcLoop]
      simp only [if_pos rfl]
      exact rowsumSrcLoop_err r0.length hl0 good hg bad hb _ _ _
    · show allsumSrcLoop 0 [] [] ((r0 :: good ++ bad :: rest2).map Except.ok) = _
      have hmap : (r0 :: good ++ bad :: rest2).map Except.ok
          = Except.ok r0 :: (good.map Except.ok
              ++ Except.ok bad :: rest2.map (@Except.ok String (List Int))) := by
        simp
      set cur0 := sumRowWith 0 r0 (List.replicate r0.length 0) with hcur0
      have hpre : precomp_allsum r0 [] = some cur0 := by
        show precompAllsumAux 0 r0 ((([] : List (List Int)).getLast?).getD
          (List.replicate r0.length 0)) = _
        simpa using precompAllsumAux_eq_sumRowWith 0 r0
          (List.replicate r0.length 0) (by simp)
      have hcur0len : cur0.length = r0.length := by
        rw [hcur0, sumRowWith_length 0 r0 (List.replicate r0.length 0) (by simp)]
      rw [hmap, allsumSrcLoop]
      simp only [if_neg (by simp : ¬((0 : Nat) ≠ 0 ∧ (0 : Nat) ≠ r0.length)), hpre,
        if_pos rfl]
      exact allsumSrcLoop_err r0.length hl0 good hg bad hb _ _ _
        (by simp [hcur0len])
  refine ⟨?_, ?_, herr, ?_, ?_⟩
  · constructor
    · intro hok
      by_contra hnall
      obtain ⟨g, b, r2, hdec, hg, hb⟩ := exists_first_offender hnall
      rw [(herr g b r2 hdec hg hb).1] at hok
      exact absurd hok (by simp [RunResult.isErr, RunResult.isOk])
    · intro hall
      rw [rowsumNew_eq r0.length r0 rest (by
        intro r hr
        rcases List.mem_cons.mp hr with h1 | h2
        · rw [h1]
        · exact hall r h2)]
      rfl
  · constructor
    · intro hok
      by_contra hnall
      obtain ⟨g, b, r2, hdec, hg, hb⟩ := exists_first_offender hnall
      rw [(herr g b r2 hdec hg hb).2] at hok
      exact absurd hok (by simp [RunResult.isErr, RunResult.isOk])
    · intro hall
      rw [allsumNew_eq r0.length r0 rest (by
        intro r hr
        rcases List.mem_cons.mp hr with h1 | h2
        · rw [h1]
        · exact hall r h2)]
      rfl
  · intro m hm r hr
    by_cases hall : ∀ r ∈ rest, r.length = r0.length
    · have hL : ∀ x ∈ r0 :: rest, x.length = r0.length := by
        intro x hx
        rcases List.mem_cons.mp hx with h1 | h2
        · rw [h1]
        · exact hall x h2
      have hp := rowsumNew_ok_parts r0.length r0 rest hL m hm
      subst hp
      exact hL r hr
    · exfalso
      obtain ⟨g, b, r2, hdec, hg, hb⟩ := exists_first_offender hall
      rw [(herr g b r2 hdec hg hb).1] at hm
      exact absurd hm (by simp)
  · intro m hm r hr
    by_cases hall : ∀ r ∈ rest, r.length = r0.length
    · have hL : ∀ x ∈ r0 :: rest, x.length = r0.length := by
        intro x hx
        rcases List.mem_cons.mp hx with h1 | h2
        · rw [h1]
        · exact hall x h2
      have hp := allsumNew_ok_parts r0.length r0 rest hL m hm
      subst hp
      exact hL r hr
    · exfalso
      obtain ⟨g, b, r2, hdec, hg, hb⟩ := exists_first_offender hall
      rw [(herr g b r2 hdec hg hb).2] at hm
      exact absurd hm (by simp)

/-- Witness for the amended C5: the third row of `[[1,2],[3,4],[5]]` has
length 1 instead of 2, and both constructors fail with the
shape-mismatch error carrying 2 and 1. -/
theorem claim_C5_amended_witness :
    rowsumNew [[1, 2], [3, 4], [5]] = .err (.shapeMismatch 2 1)
    ∧ allsumNew [[1, 2], [3, 4], [5]] = .err (.shapeMismatch 2 1) :=
  (claim_C5_amended [1, 2] [[3, 4], [5]] (by decide)).2.2.1 [[3, 4]] [5] []
    (by decide) (by decide) (by decide)

/-- C6 as stated is false: on a source whose records are the rows `[]`
and `[1]` followed by a record that fails to parse, the `allsum`
constructor aborts on an out-of-bounds index while processing the
second row, before it ever reaches the failing record — construction
neither returns an error nor a matrix. -/
theorem claim_C6_counterexample :
    allsumNewFromSource [Except.ok [], Except.ok [1], Except.error "bad"] = .crash
    ∧ (allsumNewFromSource
        [Except.ok [], Except.ok [1], Except.error "bad"]).isErr = false := by decide

/-- C6 amended: if any record of the source fails, construction yields
no matrix value at all — the `rowsum` variant returns an error, the
`allsum` variant returns an error or aborts; and whenever construction
of either variant does return a matrix, its rows are exactly the full
parsed source, never a strict prefix. -/
theorem claim_C6_amended (source : List (Except String (List Int))) :
    ((∃ msg, Except.error msg ∈ source) →
      (rowsumNewFromSource source).isErr = true
      ∧ (allsumNewFromSource source).isOk = false)
    ∧ (∀ m : RowsumMatrix, rowsumNewFromSource source = .ok m →
        source = m.elems.map Except.ok)
    ∧ (∀ m : AllsumMatrix, allsumNewFromSource source = .ok m →
        source = m.elems.map Except.ok) := by
  refine ⟨?_, ?_, ?_⟩
  · rintro ⟨msg, hmem⟩
    exact ⟨rowsumSrcLoop_isErr_of_err 0 [] [] source msg hmem,
      allsumSrcLoop_not_ok_of_err 0 [] [] source msg hmem⟩
  · intro m hm
    obtain ⟨rows, hsrc, helems⟩ := rowsumSrcLoop_ok_src 0 [] [] source m hm
    rw [hsrc, helems]
    simp
  · intro m hm
    obtain ⟨rows, hsrc, helems⟩ := allsumSrcLoop_ok_src 0 [] [] source m hm
    rw [hsrc, helems]
    simp

/-- Witness for the amended C6 at a concrete source with a failing
record. -/
theorem claim_C6_amended_witness :
    (rowsumNewFromSource [Except.ok [1], Except.error "x"]).isErr = true
    ∧ (allsumNewFromSource [Except.ok [1], Except.error "x"]).isOk = false :=
  (claim_C6_amended [Except.ok [1], Except.error "x"]).1 ⟨"x", by simp⟩

end RangeSum
